import Mathlib

/-!
Verification of the subagent runner shared by the librarian and oracle
extensions (`runLibrarian` / `runOracle`).  The runner spawns one child
process, reads newline-delimited JSON events from its stdout, and
accumulates usage statistics, tool calls and the latest assistant text
into a `SubagentResult`.

The embedding below translates the runner's data model and its
event-processing loop.  JSON numbers standing for token counts are
modelled as `Nat` and the dollar cost as `NNRat`, following the data
model (non-negative counts / non-negative decimal cost); absent JSON
fields are modelled with `Option`, so the JavaScript `x || 0` guard
becomes `Option.getD 0`.  `JSON.parse` together with the extraction of
the `type` and `message` fields is external library behaviour and is
modelled by an arbitrary function `parse : String → Option RawEvent`
(a line on which `JSON.parse` throws maps to `none`).
-/

/-- Cost sub-record of a usage record (`usage.cost`), with the optional
`total` field read by `usage.cost?.total || 0`. -/
structure Cost where
  total : Option NNRat

/-- Usage record optionally attached to an assistant message
(`msg.usage`): every field may be absent. -/
structure Usage where
  input : Option Nat
  output : Option Nat
  cacheRead : Option Nat
  cacheWrite : Option Nat
  cost : Option Cost
  totalTokens : Option Nat

/-- One content block of a message: a `text` block, a `toolCall` block
(whose `arguments` record may be absent, `block.arguments || {}`), or a
block of any other type, which the runner ignores. -/
inductive Block where
  | text (s : String)
  | toolCall (name : String) (args : Option (List (String × String)))
  | other

/-- A chat message as carried by an event.  `content := none` models a
`content` field that is not an array (`Array.isArray` fails);
`model := none` models an absent model field. -/
structure Message where
  role : String
  content : Option (List Block)
  usage : Option Usage
  model : Option String

/-- A parsed stream event: its `type` discriminator string and its
optional `message` payload (`none` when `event.message` is falsy). -/
structure RawEvent where
  type : String
  message : Option Message

/-- Running totals (`result.usage`), zero-initialised at launch. -/
structure UsageStats where
  input : Nat
  output : Nat
  cacheRead : Nat
  cacheWrite : Nat
  cost : NNRat
  contextTokens : Nat
  turns : Nat

/-- One recorded tool invocation (`ToolCallInfo`). -/
structure ToolCallInfo where
  name : String
  args : List (String × String)

/-- The accumulated result object (`SubagentResult`). -/
structure SubagentResult where
  exitCode : Int
  output : String
  toolCalls : List ToolCallInfo
  usage : UsageStats
  model : Option String
  error : Option String

/-- The runner's mutable state: the `result` object plus the internal
`messages` transcript array. -/
structure RunState where
  result : SubagentResult
  messages : List Message

/-- Zero-valued usage statistics, as initialised at invocation start. -/
def usageZero : UsageStats :=
  { input := 0, output := 0, cacheRead := 0, cacheWrite := 0, cost := 0,
    contextTokens := 0, turns := 0 }

/-- The result object as initialised before the child is spawned. -/
def initResult : SubagentResult :=
  { exitCode := 0, output := "", toolCalls := [], usage := usageZero,
    model := none, error := none }

/-- Initial runner state: zeroed result, empty transcript. -/
def initState : RunState :=
  { result := initResult, messages := [] }

/-- Strip leading and trailing whitespace from a character list. -/
def trimChars (cs : List Char) : List Char :=
  ((cs.dropWhile Char.isWhitespace).reverse.dropWhile Char.isWhitespace).reverse

/-- JavaScript `String.prototype.trim`: remove whitespace from both
ends of the string. -/
def jsTrim (s : String) : String :=
  String.mk (trimChars s.data)

/-- Text of one message: the `text` fields of its text blocks joined
with newlines and trimmed (`content.filter(text).map(.text).join("\n").trim()`);
empty when `content` is not an array. -/
def msgText (m : Message) : String :=
  match m.content with
  | some blocks =>
      jsTrim (String.intercalate "\n"
        (blocks.filterMap fun b =>
          match b with
          | Block.text s => some s
          | _ => none))
  | none => ""

/-- Backward scan of `getFinalOutput`: walk the transcript from the
newest message, skip non-assistant messages and messages whose content
is not an array, and return the first non-empty joined text. -/
def getFinalOutputAux : List Message → String
  | [] => ""
  | m :: rest =>
      if m.role = "assistant" then
        match m.content with
        | some _ =>
            if msgText m = "" then getFinalOutputAux rest else msgText m
        | none => getFinalOutputAux rest
      else getFinalOutputAux rest

/-- `getFinalOutput(messages)`: the most recent non-empty assistant
text in the transcript, or the empty string. -/
def getFinalOutput (messages : List Message) : String :=
  getFinalOutputAux messages.reverse

/-- Truthiness of an optional string (JavaScript: absent and `""` are
falsy). -/
def strTruthy (o : Option String) : Bool :=
  o.getD "" != ""

/-- Tool-call records extracted from a message's content blocks, in
block order, with absent `arguments` replaced by the empty record. -/
def msgToolCalls (m : Message) : List ToolCallInfo :=
  match m.content with
  | some blocks =>
      blocks.filterMap fun b =>
        match b with
        | Block.toolCall n a => some { name := n, args := a.getD [] }
        | _ => none
  | none => []

/-- The assistant branch of `processLine` on a `message_end` event:
increment `turns`, add the usage record's fields (missing fields read
as 0, `contextTokens` overwritten with `totalTokens || 0`), record the
first truthy model, and append one tool call per `toolCall` block. -/
def applyAssistant (r : SubagentResult) (m : Message) : SubagentResult :=
  let u1 : UsageStats := { r.usage with turns := r.usage.turns + 1 }
  let u2 : UsageStats :=
    match m.usage with
    | some mu =>
        { input := u1.input + mu.input.getD 0,
          output := u1.output + mu.output.getD 0,
          cacheRead := u1.cacheRead + mu.cacheRead.getD 0,
          cacheWrite := u1.cacheWrite + mu.cacheWrite.getD 0,
          cost := u1.cost + (mu.cost.bind Cost.total).getD 0,
          contextTokens := mu.totalTokens.getD 0,
          turns := u1.turns }
    | none => u1
  let model' : Option String :=
    if !(strTruthy r.model) && strTruthy m.model then m.model else r.model
  { r with usage := u2, model := model',
           toolCalls := r.toolCalls ++ msgToolCalls m }

/-- `emitUpdate`: recompute `result.output` from the transcript. -/
def emitUpdate (st : RunState) : RunState :=
  { st with result := { st.result with output := getFinalOutput st.messages } }

/-- Body of `processLine` after a successful parse: the two sequential
event-shape checks (`message_end`, `tool_execution_end`); every other
event leaves the state unchanged. -/
def processEvent (st : RunState) (e : RawEvent) : RunState :=
  let st1 :=
    if e.type = "message_end" then
      match e.message with
      | some m =>
          let pushed : RunState := { st with messages := st.messages ++ [m] }
          let updated : RunState :=
            if m.role = "assistant" then
              { pushed with result := applyAssistant pushed.result m }
            else pushed
          emitUpdate updated
      | none => st
    else st
  if e.type = "tool_execution_end" then
    match e.message with
    | some m => emitUpdate { st1 with messages := st1.messages ++ [m] }
    | none => st1
  else st1

/-- `processLine`: skip blank lines, silently discard lines that do not
parse, and dispatch parsed events. -/
def processLine (parse : String → Option RawEvent) (st : RunState)
    (line : String) : RunState :=
  if jsTrim line = "" then st
  else
    match parse line with
    | some e => processEvent st e
    | none => st

/-- JavaScript `buffer.split("\n")` over a character list: the list of
`'\n'`-separated segments (one more segment than separators). -/
def jsSplitNl : List Char → List (List Char)
  | [] => [[]]
  | c :: rest =>
      if c = '\n' then [] :: jsSplitNl rest
      else
        match jsSplitNl rest with
        | [] => [[c]]
        | l :: ls => (c :: l) :: ls

/-- Complete lines and trailing fragment of a character list: the same
split as `jsSplitNl`, with the last segment (the part after the final
newline, kept as the buffer by `lines.pop() || ""`) separated out. -/
def splitLines : List Char → List (List Char) × List Char
  | [] => ([], [])
  | c :: rest =>
      let p := splitLines rest
      if c = '\n' then ([] :: p.1, p.2)
      else
        match p.1 with
        | [] => ([], c :: p.2)
        | l :: ls => ((c :: l) :: ls, p.2)

/-- `processLine` applied to a line given as a character list. -/
def processLineChars (parse : String → Option RawEvent) (st : RunState)
    (l : List Char) : RunState :=
  processLine parse st (String.mk l)

/-- The `proc.stdout.on("data")` handler, given the already-decoded
text of one chunk: append it to the held buffer, split on newlines,
keep the trailing fragment as the new buffer
(`buffer = lines.pop() || ""`), and process each complete line.  The
per-chunk `data.toString()` UTF-8 decode that precedes this is
modelled separately (`utf8Decode` / `runByteChunks`). -/
def handleData (parse : String → Option RawEvent)
    (acc : RunState × List Char) (data : List Char) : RunState × List Char :=
  let parts := jsSplitNl (acc.2 ++ data)
  (parts.dropLast.foldl (processLineChars parse) acc.1,
   (parts.getLast?).getD [])

/-- The `proc.on("close")` flush: if the held buffer is non-blank, feed
it through `processLine`. -/
def flushClose (parse : String → Option RawEvent)
    (acc : RunState × List Char) : RunState :=
  if jsTrim (String.mk acc.2) = "" then acc.1
  else processLineChars parse acc.1 acc.2

/-- Whole consumer: feed every stdout chunk through the data handler,
starting from the empty buffer and the zeroed state, then flush the
trailing buffer at process close. -/
def runChunks (parse : String → Option RawEvent)
    (chunks : List (List Char)) : RunState :=
  flushClose parse (chunks.foldl (handleData parse) (initState, []))

/-- Spec-side description of the output field: the text of the most
recent assistant message with non-empty text content seen so far, or
the empty string if there is none. -/
def specLatestAssistantText (ms : List Message) : String :=
  match ms.reverse.find? (fun m => m.role == "assistant" && msgText m != "") with
  | some m => msgText m
  | none => ""

/-- An event counts as one turn exactly when it is a `message_end`
event whose message has role `"assistant"`. -/
def isAssistantMessageEnd (e : RawEvent) : Bool :=
  e.type == "message_end" &&
    (match e.message with
     | some m => m.role == "assistant"
     | none => false)

/-- A usage record with every possibly-missing field replaced by its
explicit value-or-zero. -/
def fillZeroUsage (u : Usage) : Usage :=
  { input := some (u.input.getD 0),
    output := some (u.output.getD 0),
    cacheRead := some (u.cacheRead.getD 0),
    cacheWrite := some (u.cacheWrite.getD 0),
    cost := some ⟨some ((u.cost.bind Cost.total).getD 0)⟩,
    totalTokens := some (u.totalTokens.getD 0) }

/-- JavaScript `a || b` on strings: `b` when `a` is empty. -/
def jsOrString (a b : String) : String :=
  if a = "" then b else a

/-- What the execute handler reports back to the tool layer. -/
structure ToolOutcome where
  text : String
  isError : Bool

/-- The final branch of the execute handler: a run with non-zero exit
code or empty output is reported as an error, with the error message
chosen as `result.error || result.output || fallback`; otherwise the
output text is returned as a success.  The librarian and oracle
handlers differ only in the `label` string ("Librarian" / "Oracle"). -/
def executeOutcome (label : String) (r : SubagentResult) : ToolOutcome :=
  if r.exitCode ≠ 0 ∨ r.output = "" then
    { text := label ++ " error: " ++
        jsOrString (r.error.getD "")
          (jsOrString r.output (label ++ " failed with no output")),
      isError := true }
  else
    { text := r.output, isError := false }

/-- The `proc.stderr.on("data")` handler: append the chunk to the
accumulated error string (starting from the empty string when no error
text exists yet). -/
def appendStderr (r : SubagentResult) (chunk : String) : SubagentResult :=
  { r with error := some (r.error.getD "" ++ chunk) }

/-- Result finalisation after the exit promise resolves: store the exit
code, overwrite the error field with the fixed abort message when the
abort handler fired, and recompute the output from the transcript. -/
def finalizeResult (abortMsg : String) (wasAborted : Bool) (code : Int)
    (messages : List Message) (r : SubagentResult) : SubagentResult :=
  let r1 : SubagentResult := { r with exitCode := code }
  let r2 : SubagentResult :=
    if wasAborted then { r1 with error := some abortMsg } else r1
  { r2 with output := getFinalOutput messages }

/-- Child-process state as observable through the Node API: whether the
OS process is still running, and the `killed` flag, which Node sets
when a signal was successfully delivered to the process — not when the
process exits. -/
structure ChildProc where
  running : Bool
  killedFlag : Bool

/-- The two signals used by the cancellation path. -/
inductive Signal where
  | sigterm
  | sigkill

/-- Modelled platform semantics of `proc.kill(sig)`: delivering a
signal to a running process sets the `killed` flag; SIGKILL terminates
a running process, SIGTERM terminates it only when the child does not
ignore it; a signal sent to an exited process does nothing and leaves
the flag unchanged. -/
def procKill (ignoresSigterm : Bool) (sig : Signal) (p : ChildProc) :
    ChildProc :=
  if p.running then
    match sig with
    | Signal.sigterm => { running := ignoresSigterm, killedFlag := true }
    | Signal.sigkill => { running := false, killedFlag := true }
  else p

/-- The `killProc` cancellation handler: send SIGTERM, then after the
5-second timeout send SIGKILL only if `proc.killed` is still false.
The second component records whether the SIGKILL branch fired. -/
def killProc (ignoresSigterm : Bool) (p : ChildProc) : ChildProc × Bool :=
  let p1 := procKill ignoresSigterm Signal.sigterm p
  if p1.killedFlag = false then
    (procKill ignoresSigterm Signal.sigkill p1, true)
  else (p1, false)

/-- Launch-time operations of the runner, in order. -/
inductive RunnerAction where
  | spawnChild
  | sendSigterm
  | scheduleSigkillTimeout
  | addAbortListener
  deriving DecidableEq

/-- Order of operations in the Promise executor: the child process is
spawned first, unconditionally; afterwards, when a cancellation signal
was supplied, an already-aborted signal triggers `killProc` right away
(SIGTERM plus the scheduled SIGKILL timeout), otherwise an abort
listener is registered. -/
def runnerLaunchTrace (hasSignal signalAborted : Bool) :
    List RunnerAction :=
  [RunnerAction.spawnChild] ++
    (if hasSignal then
      (if signalAborted then
        [RunnerAction.sendSigterm, RunnerAction.scheduleSigkillTimeout]
      else [RunnerAction.addAbortListener])
    else [])

/-- A concrete parse function used to instantiate universally
quantified statements: the line `x` parses to one assistant message,
everything else is malformed. -/
def witnessParse : String → Option RawEvent := fun l =>
  if l = "x" then
    some ⟨"message_end",
      some { role := "assistant", content := some [Block.text "ok"],
             usage := none, model := none }⟩
  else none

/-- Modelled platform semantics of the per-chunk `data.toString()`
UTF-8 decode (Node / WHATWG replacement decoding), over bytes given as
naturals below 256: ASCII bytes map to themselves; well-formed 2-, 3-
and 4-byte sequences map to their code point; an invalid leading byte,
an invalid continuation byte (decoding resumes at that byte), or a
sequence truncated by the end of the chunk produces one U+FFFD
replacement character.  Each stdout chunk is decoded independently, so
a multi-byte sequence split across two chunks is replaced rather than
reassembled. -/
def utf8DecodeAux : Nat → List Nat → List Char
  | 0, _ => []
  | _ + 1, [] => []
  | fuel + 1, b :: rest =>
    if b < 0x80 then Char.ofNat b :: utf8DecodeAux fuel rest
    else if 0xC2 ≤ b ∧ b ≤ 0xDF then
      match rest with
      | [] => [Char.ofNat 0xFFFD]
      | b1 :: r1 =>
        if 0x80 ≤ b1 ∧ b1 ≤ 0xBF then
          Char.ofNat ((b - 0xC0) * 64 + (b1 - 0x80)) :: utf8DecodeAux fuel r1
        else Char.ofNat 0xFFFD :: utf8DecodeAux fuel rest
    else if 0xE0 ≤ b ∧ b ≤ 0xEF then
      match rest with
      | [] => [Char.ofNat 0xFFFD]
      | b1 :: r1 =>
        if (if b = 0xE0 then 0xA0 else 0x80) ≤ b1 ∧
            b1 ≤ (if b = 0xED then 0x9F else 0xBF) then
          match r1 with
          | [] => [Char.ofNat 0xFFFD]
          | b2 :: r2 =>
            if 0x80 ≤ b2 ∧ b2 ≤ 0xBF then
              Char.ofNat ((b - 0xE0) * 4096 + (b1 - 0x80) * 64 + (b2 - 0x80))
                :: utf8DecodeAux fuel r2
            else Char.ofNat 0xFFFD :: utf8DecodeAux fuel r1
        else Char.ofNat 0xFFFD :: utf8DecodeAux fuel rest
    else if 0xF0 ≤ b ∧ b ≤ 0xF4 then
      match rest with
      | [] => [Char.ofNat 0xFFFD]
      | b1 :: r1 =>
        if (if b = 0xF0 then 0x90 else 0x80) ≤ b1 ∧
            b1 ≤ (if b = 0xF4 then 0x8F else 0xBF) then
          match r1 with
          | [] => [Char.ofNat 0xFFFD]
          | b2 :: r2 =>
            if 0x80 ≤ b2 ∧ b2 ≤ 0xBF then
              match r2 with
              | [] => [Char.ofNat 0xFFFD]
              | b3 :: r3 =>
                if 0x80 ≤ b3 ∧ b3 ≤ 0xBF then
                  Char.ofNat ((b - 0xF0) * 262144 + (b1 - 0x80) * 4096 +
                      (b2 - 0x80) * 64 + (b3 - 0x80)) :: utf8DecodeAux fuel r3
                else Char.ofNat 0xFFFD :: utf8DecodeAux fuel r2
            else Char.ofNat 0xFFFD :: utf8DecodeAux fuel r1
        else Char.ofNat 0xFFFD :: utf8DecodeAux fuel rest
    else Char.ofNat 0xFFFD :: utf8DecodeAux fuel rest

/-- The decoder with enough fuel: every step of `utf8DecodeAux`
consumes at least one byte and spends exactly one unit of fuel, so the
chunk's length is always sufficient and the fuel-exhausted branch is
unreachable. -/
def utf8Decode (bs : List Nat) : List Char :=
  utf8DecodeAux bs.length bs

/-- The stdout consumer at the byte level: each Buffer chunk is decoded
to text independently (`buffer += data.toString()`), fed through the
line-buffering data handler, and the trailing buffer is flushed at
process close. -/
def runByteChunks (parse : String → Option RawEvent)
    (chunks : List (List Nat)) : RunState :=
  flushClose parse
    (chunks.foldl (fun acc ch => handleData parse acc (utf8Decode ch))
      (initState, []))

/-- A concrete parse function for the byte-level counterexample: the
single line `é` parses to one assistant message, everything else is
malformed. -/
def byteWitnessParse : String → Option RawEvent := fun l =>
  if l = "é" then
    some ⟨"message_end",
      some { role := "assistant", content := some [Block.text "ok"],
             usage := none, model := none }⟩
  else none

example : (processEvent initState ⟨"message_end", none⟩) = initState := rfl
example :
    (processEvent initState
      ⟨"message_end",
        some { role := "assistant", content := some [Block.text "Hello"],
               usage := none, model := none }⟩).result.output = "Hello" := by
  decide
example : jsSplitNl "a\nbc\n".data = ["a".data, "bc".data, []] := by decide
example : splitLines "a\nbc".data = (["a".data], "bc".data) := by decide
example : utf8Decode [0x61, 0xC3, 0xA9, 0xE2, 0x82, 0xAC] = "aé€".data := by
  decide
example : utf8Decode [0xC3] = [Char.ofNat 0xFFFD] := by decide
example : utf8Decode [0xA9] = [Char.ofNat 0xFFFD] := by decide

/-- Decoding each chunk and then line-buffering is the character-level
consumer applied to the decoded chunks. -/
lemma runByteChunks_eq_runChunks (parse : String → Option RawEvent)
    (chunks : List (List Nat)) :
    runByteChunks parse chunks = runChunks parse (chunks.map utf8Decode) := by
  unfold runByteChunks runChunks
  rw [List.foldl_map]

/-- The two split views agree: the JavaScript split equals the complete
lines followed by the trailing fragment. -/
lemma jsSplitNl_eq (cs : List Char) :
    jsSplitNl cs = (splitLines cs).1 ++ [(splitLines cs).2] := by
  induction cs with
  | nil => rfl
  | cons c rest ih =>
    by_cases hc : c = '\n'
    · simp [jsSplitNl, splitLines, hc, ih]
    · simp only [jsSplitNl, splitLines, hc, if_false, ih]
      cases h : (splitLines rest).1 with
      | nil => simp [h]
      | cons l ls => simp [h]

/-- The trailing fragment never contains a newline. -/
lemma nl_not_mem_splitLines_snd (cs : List Char) :
    '\n' ∉ (splitLines cs).2 := by
  induction cs with
  | nil => simp [splitLines]
  | cons c rest ih =>
    by_cases hc : c = '\n'
    · simpa [splitLines, hc] using ih
    · simp only [splitLines]
      cases h : (splitLines rest).1 with
      | nil =>
        simp only [hc, if_false, h]
        intro hmem
        rcases List.mem_cons.mp hmem with h1 | h1
        · exact hc h1.symm
        · exact ih h1
      | cons l ls => simpa [hc, h] using ih

/-- A newline-free character list splits into no complete line and
itself as the trailing fragment. -/
lemma splitLines_of_nl_not_mem (cs : List Char) (h : '\n' ∉ cs) :
    splitLines cs = ([], cs) := by
  induction cs with
  | nil => rfl
  | cons c rest ih =>
    have hc : ¬ c = '\n' := fun he => h (he ▸ List.mem_cons_self c rest)
    have hr : '\n' ∉ rest := fun hm => h (List.mem_cons_of_mem c hm)
    simp [splitLines, hc, ih hr]

/-- Splitting a concatenation: the complete lines of `x ++ y` are those
of `x` followed by those of the trailing fragment of `x` glued to `y`. -/
lemma splitLines_append (x y : List Char) :
    splitLines (x ++ y) =
      ((splitLines x).1 ++ (splitLines ((splitLines x).2 ++ y)).1,
       (splitLines ((splitLines x).2 ++ y)).2) := by
  induction x with
  | nil => simp [splitLines]
  | cons c x ih =>
    by_cases hc : c = '\n'
    · simp [splitLines, hc, ih]
    · simp only [List.cons_append, splitLines, hc, if_false, ih]
      cases h1 : (splitLines x).1 with
      | nil =>
        simp only [h1, List.nil_append]
        cases h2 : (splitLines ((splitLines x).2 ++ y)).1 with
        | nil => simp [splitLines, hc, ih, h1, h2]
        | cons a as => simp [splitLines, hc, ih, h1, h2]
      | cons l ls => simp [ih, h1]

/-- The data handler in terms of `splitLines`. -/
lemma handleData_eq (parse : String → Option RawEvent) (st : RunState)
    (buf data : List Char) :
    handleData parse (st, buf) data =
      ((splitLines (buf ++ data)).1.foldl (processLineChars parse) st,
       (splitLines (buf ++ data)).2) := by
  unfold handleData
  rw [jsSplitNl_eq]
  simp

/-- Feeding two chunks in sequence equals feeding their concatenation. -/
lemma handleData_handleData (parse : String → Option RawEvent)
    (st : RunState) (buf a b : List Char) :
    handleData parse (handleData parse (st, buf) a) b =
      handleData parse (st, buf) (a ++ b) := by
  rw [handleData_eq, handleData_eq, handleData_eq, ← List.append_assoc,
    splitLines_append (buf ++ a) b, List.foldl_append]

/-- The backward scan equals a forward `find?` for the first message
satisfying the assistant-with-non-empty-text predicate. -/
lemma getFinalOutputAux_eq (l : List Message) :
    getFinalOutputAux l =
      (match l.find? (fun m => m.role == "assistant" && msgText m != "") with
       | some m => msgText m
       | none => "") := by
  induction l with
  | nil => rfl
  | cons m rest ih =>
    by_cases hr : m.role = "assistant"
    · cases hc : m.content with
      | none =>
        have ht : msgText m = "" := by simp [msgText, hc]
        rw [List.find?_cons_of_neg _ (by simp [ht])]
        simp [getFinalOutputAux, hr, hc, ih]
      | some bs =>
        by_cases ht : msgText m = ""
        · rw [List.find?_cons_of_neg _ (by simp [ht])]
          simp [getFinalOutputAux, hr, hc, ht, ih]
        · rw [List.find?_cons_of_pos _ (by simp [hr, ht])]
          simp [getFinalOutputAux, hr, hc, ht]
    · rw [List.find?_cons_of_neg _ (by simp [hr])]
      simp [getFinalOutputAux, hr, ih]

/-- The transcript scan computes the spec-side description of the
output field. -/
lemma getFinalOutput_eq_spec (ms : List Message) :
    getFinalOutput ms = specLatestAssistantText ms := by
  unfold getFinalOutput specLatestAssistantText
  rw [getFinalOutputAux_eq]

/-- One processed event preserves the invariant that `result.output` is
the transcript scan of the messages seen so far. -/
lemma processEvent_output (st : RunState) (e : RawEvent)
    (h : st.result.output = getFinalOutput st.messages) :
    (processEvent st e).result.output =
      getFinalOutput (processEvent st e).messages := by
  unfold processEvent
  by_cases h1 : e.type = "message_end"
  · cases hm : e.message with
    | none => simp [h1, hm, h]
    | some m =>
      by_cases hr : m.role = "assistant"
      · simp [h1, hm, hr, emitUpdate]
      · simp [h1, hm, hr, emitUpdate]
  · by_cases h2 : e.type = "tool_execution_end"
    · cases hm : e.message with
      | none => simp [h1, h2, hm, h]
      | some m => simp [h1, h2, hm, emitUpdate]
    · simp [h1, h2, h]

/-- The invariant over any processed event sequence. -/
lemma foldl_processEvent_output (evs : List RawEvent) :
    ∀ st : RunState, st.result.output = getFinalOutput st.messages →
      (evs.foldl processEvent st).result.output =
        getFinalOutput (evs.foldl processEvent st).messages := by
  induction evs with
  | nil => intro st h; exact h
  | cons e evs ih => intro st h; exact ih _ (processEvent_output st e h)

/-- One processed event bumps the turn counter by one exactly on
assistant `message_end` events. -/
lemma processEvent_turns (st : RunState) (e : RawEvent) :
    (processEvent st e).result.usage.turns =
      st.result.usage.turns + (if isAssistantMessageEnd e then 1 else 0) := by
  unfold processEvent isAssistantMessageEnd
  by_cases h1 : e.type = "message_end"
  · cases hm : e.message with
    | none => simp [h1, hm]
    | some m =>
      by_cases hr : m.role = "assistant"
      · cases hu : m.usage with
        | none => simp [h1, hm, hr, hu, emitUpdate, applyAssistant]
        | some mu => simp [h1, hm, hr, hu, emitUpdate, applyAssistant]
      · simp [h1, hm, hr, emitUpdate]
  · by_cases h2 : e.type = "tool_execution_end"
    · cases hm : e.message with
      | none => simp [h1, h2, hm]
      | some m => simp [h1, h2, hm, emitUpdate]
    · simp [h1, h2]

/-- Turn counting over any event sequence. -/
lemma foldl_processEvent_turns (evs : List RawEvent) :
    ∀ st : RunState,
      (evs.foldl processEvent st).result.usage.turns =
        st.result.usage.turns + evs.countP isAssistantMessageEnd := by
  induction evs with
  | nil => intro st; simp
  | cons e evs ih =>
    intro st
    rw [List.foldl_cons, ih, processEvent_turns, List.countP_cons]
    by_cases h : isAssistantMessageEnd e
    · simp only [h, if_true]
      omega
    · simp [h]

/-- A line that fails to parse leaves the state unchanged. -/
lemma processLine_of_parse_none (parse : String → Option RawEvent)
    (st : RunState) (line : String) (h : parse line = none) :
    processLine parse st line = st := by
  unfold processLine
  split
  · rfl
  · rw [h]

/-- Folding the data handler over a chunk list equals feeding the whole
concatenated stream at once, provided the starting buffer is
newline-free. -/
lemma foldl_handleData (parse : String → Option RawEvent)
    (chunks : List (List Char)) :
    ∀ (st : RunState) (buf : List Char), '\n' ∉ buf →
      chunks.foldl (handleData parse) (st, buf) =
        handleData parse (st, buf) chunks.flatten := by
  induction chunks with
  | nil =>
    intro st buf h
    rw [List.foldl_nil, List.flatten_nil, handleData_eq, List.append_nil,
      splitLines_of_nl_not_mem buf h]
    rfl
  | cons ch chs ih =>
    intro st buf h
    rw [List.foldl_cons, List.flatten_cons, handleData_eq parse st buf ch,
      ih _ _ (nl_not_mem_splitLines_snd (buf ++ ch)),
      handleData_eq, handleData_eq, ← List.append_assoc,
      splitLines_append (buf ++ ch) chs.flatten, List.foldl_append]

/-- One processed event never shrinks the summed usage fields, the turn
counter, or the tool-call list (which grows only by appending at the
end). -/
lemma processEvent_mono (st : RunState) (e : RawEvent) :
    st.result.usage.input ≤ (processEvent st e).result.usage.input ∧
    st.result.usage.output ≤ (processEvent st e).result.usage.output ∧
    st.result.usage.cacheRead ≤ (processEvent st e).result.usage.cacheRead ∧
    st.result.usage.cacheWrite ≤ (processEvent st e).result.usage.cacheWrite ∧
    st.result.usage.cost ≤ (processEvent st e).result.usage.cost ∧
    st.result.usage.turns ≤ (processEvent st e).result.usage.turns ∧
    st.result.toolCalls <+: (processEvent st e).result.toolCalls := by
  unfold processEvent
  by_cases h1 : e.type = "message_end"
  · cases hm : e.message with
    | none => simp [h1, hm]
    | some m =>
      by_cases hr : m.role = "assistant"
      · cases hu : m.usage with
        | none =>
          simp [h1, hm, hr, hu, emitUpdate, applyAssistant,
            List.prefix_append]
        | some mu =>
          simp [h1, hm, hr, hu, emitUpdate, applyAssistant,
            List.prefix_append, Nat.le_add_right, le_self_add]
      · simp [h1, hm, hr, emitUpdate]
  · by_cases h2 : e.type = "tool_execution_end"
    · cases hm : e.message with
      | none => simp [h1, h2, hm]
      | some m => simp [h1, h2, hm, emitUpdate]
    · simp [h1, h2]

/-- The tool-call list at any earlier point of a run is a prefix of the
tool-call list after processing any further event sequence. -/
lemma foldl_processEvent_toolCalls (evs : List RawEvent) :
    ∀ st : RunState,
      st.result.toolCalls <+: (evs.foldl processEvent st).result.toolCalls := by
  induction evs with
  | nil => intro st; exact List.prefix_refl _
  | cons e evs ih =>
    intro st
    exact List.IsPrefix.trans (processEvent_mono st e).2.2.2.2.2.2 (ih _)

/-- C1: after the runner has processed any prefix of the child's event
stream, the result's `output` field equals the text of the most recent
assistant message with non-empty text content seen so far (that one
message's text blocks joined, as computed by `getFinalOutput`), or the
empty string when no such message has been seen yet. -/
theorem c1_output_tracks_latest_assistant_text (evs : List RawEvent)
    (n : Nat) :
    ((evs.take n).foldl processEvent initState).result.output =
      specLatestAssistantText
        ((evs.take n).foldl processEvent initState).messages := by
  rw [← getFinalOutput_eq_spec]
  exact foldl_processEvent_output (evs.take n) initState rfl

/-- C2 counterexample: the claim fails at the byte level.  The stdout
handler decodes each Buffer chunk independently (`data.toString()`),
so splitting the byte stream `0xC3 0xA9 0x0A` (the line `é`) between
the two bytes of the multi-byte sequence yields U+FFFD replacement
characters instead of `é`: the two byte chunkings have the same
concatenation, yet one run parses the line and counts a turn while the
other does not — the accumulated results differ. -/
theorem c2_counterexample_byte_split_changes_result :
    ([[0xC3, 0xA9, 0x0A]] : List (List Nat)).flatten =
        ([[0xC3], [0xA9, 0x0A]] : List (List Nat)).flatten ∧
      (runByteChunks byteWitnessParse
        [[0xC3, 0xA9, 0x0A]]).result.usage.turns = 1 ∧
      (runByteChunks byteWitnessParse
        [[0xC3], [0xA9, 0x0A]]).result.usage.turns = 0 :=
  ⟨rfl, by decide, by decide⟩

/-- C2 amended: the line-buffering consumer (the stdout data handler
plus the close-time flush of the trailing buffer) computes one and the
same accumulated state for any two chunkings of the same decoded text
stream — chunk boundaries at character granularity, including
boundaries in the middle of a line.  Only a byte split falling inside
a multi-byte UTF-8 sequence, which changes the decoded text itself,
escapes this invariance. -/
theorem c2_chunking_invariance (parse : String → Option RawEvent)
    (cs1 cs2 : List (List Char)) (h : cs1.flatten = cs2.flatten) :
    runChunks parse cs1 = runChunks parse cs2 := by
  unfold runChunks
  rw [foldl_handleData parse cs1 initState [] (by simp),
    foldl_handleData parse cs2 initState [] (by simp), h]

/-- Witness for the amended C2 at a concrete chunking: `"x\nx"` fed as
`["x", "\nx"]` and as `["x\n", "x"]`. -/
theorem c2_chunking_invariance_witness :
    ([['x'], ['\n', 'x']] : List (List Char)).flatten =
        ([['x', '\n'], ['x']] : List (List Char)).flatten ∧
      runChunks witnessParse [['x'], ['\n', 'x']] =
        runChunks witnessParse [['x', '\n'], ['x']] :=
  ⟨by decide, c2_chunking_invariance witnessParse _ _ (by decide)⟩

/-- C3: after any event sequence, the `turns` counter equals the number
of `message_end` events whose message role is `"assistant"`, whatever
usage records, text or tool calls the messages carry. -/
theorem c3_turns_counts_assistant_message_end (evs : List RawEvent) :
    (evs.foldl processEvent initState).result.usage.turns =
      evs.countP isAssistantMessageEnd := by
  rw [foldl_processEvent_turns evs initState]
  simp [initState, initResult, usageZero]

/-- C4: lines that fail to parse are silently discarded — interleaving
them among valid lines leaves the final accumulated state (usage, tool
calls, output, model and transcript) exactly as in the run with the
malformed lines removed. -/
theorem c4_malformed_lines_no_effect (parse : String → Option RawEvent)
    (st : RunState) (lines : List String) :
    lines.foldl (processLine parse) st =
      (lines.filter fun l => (parse l).isSome).foldl (processLine parse) st := by
  induction lines generalizing st with
  | nil => rfl
  | cons l ls ih =>
    by_cases h : (parse l).isSome = true
    · have hf : (l :: ls).filter (fun x => (parse x).isSome) =
          l :: ls.filter (fun x => (parse x).isSome) := by
        simp [List.filter_cons, h]
      rw [hf, List.foldl_cons, List.foldl_cons, ih]
    · have hn : parse l = none := by
        cases hp : parse l
        · rfl
        · rw [hp] at h
          simp at h
      have hf : (l :: ls).filter (fun x => (parse x).isSome) =
          ls.filter (fun x => (parse x).isSome) := by
        simp [List.filter_cons, hn]
      rw [hf, List.foldl_cons,
        processLine_of_parse_none parse st l hn, ih]

/-- C5: for an assistant `message_end` event, each usage field missing
from the usage record contributes zero to the running totals — the
resulting statistics are the same as with every missing field written
as an explicit zero, and every total stays a defined value (the
embedding carries token counts in `Nat` and the cost in `NNRat`, so no
undefined value can propagate). -/
theorem c5_missing_usage_fields_read_as_zero (st : RunState) (m : Message)
    (u : Usage) :
    (processEvent st
        ⟨"message_end", some { m with role := "assistant", usage := some u }⟩).result.usage =
      { input := st.result.usage.input + u.input.getD 0,
        output := st.result.usage.output + u.output.getD 0,
        cacheRead := st.result.usage.cacheRead + u.cacheRead.getD 0,
        cacheWrite := st.result.usage.cacheWrite + u.cacheWrite.getD 0,
        cost := st.result.usage.cost + (u.cost.bind Cost.total).getD 0,
        contextTokens := u.totalTokens.getD 0,
        turns := st.result.usage.turns + 1 } ∧
    (processEvent st
        ⟨"message_end", some { m with role := "assistant", usage := some u }⟩).result.usage =
      (processEvent st
        ⟨"message_end",
          some { m with role := "assistant", usage := some (fillZeroUsage u) }⟩).result.usage :=
  ⟨rfl, rfl⟩

/-- C6: the execute handler reports the run as an error exactly when
the exit code is non-zero or the output text is empty; in particular a
result with exit code 0, no tool calls and non-empty output is reported
as a success. -/
theorem c6_error_iff_nonzero_exit_or_empty_output (label : String)
    (r : SubagentResult) :
    ((executeOutcome label r).isError = true ↔
        (r.exitCode ≠ 0 ∨ r.output = "")) ∧
      (executeOutcome label
        { exitCode := 0, output := "answer", toolCalls := [],
          usage := usageZero, model := none, error := none }).isError
        = false := by
  constructor
  · by_cases h : r.exitCode ≠ 0 ∨ r.output = ""
    · simp [executeOutcome, h]
    · simp [executeOutcome, h]
  · rfl

/-- C7 failing input: a running child that ignores SIGTERM survives the
whole cancellation path.  `proc.kill("SIGTERM")` sets the Node `killed`
flag as soon as the signal is delivered, so the 5-second timeout's
`if (!proc.killed)` guard is already false and SIGKILL is never sent:
the child is still running afterwards, contradicting the claim that
after cancellation no child process remains running. -/
theorem c7_sigterm_ignoring_child_survives :
    (killProc true { running := true, killedFlag := false }).1.running = true ∧
      (killProc true { running := true, killedFlag := false }).2 = false :=
  ⟨rfl, rfl⟩

/-- C8 counterexample: when the cancellation signal is already aborted
at invocation, the child process is spawned anyway — the spawn call
precedes the `signal.aborted` check, refuting "aborts immediately
without spawning the child process". -/
theorem c8_counterexample_spawn_happens_when_preaborted :
    RunnerAction.spawnChild ∈ runnerLaunchTrace true true := by
  decide

/-- C8 amended: when the cancellation signal is already aborted at
invocation, the runner spawns the child and then immediately initiates
termination: SIGTERM is sent at once and the SIGKILL timeout is
scheduled. -/
theorem c8_amended_preaborted_signal_spawns_then_kills :
    runnerLaunchTrace true true =
      [RunnerAction.spawnChild, RunnerAction.sendSigterm,
       RunnerAction.scheduleSigkillTimeout] := rfl

/-- C9 counterexample: `contextTokens` is a token field of `UsageStats`
yet it is overwritten with each assistant message's `totalTokens || 0`
rather than summed, so it can decrease from step to step: two assistant
`message_end` events reporting total context sizes 5 then 3 make it
drop from 5 to 3. -/
theorem c9_counterexample_contextTokens_decreases :
    (processEvent
        (processEvent initState
          ⟨"message_end",
            some { role := "assistant", content := none,
                   usage := some { input := none, output := none,
                                   cacheRead := none, cacheWrite := none,
                                   cost := none, totalTokens := some 5 },
                   model := none }⟩)
        ⟨"message_end",
          some { role := "assistant", content := none,
                 usage := some { input := none, output := none,
                                 cacheRead := none, cacheWrite := none,
                                 cost := none, totalTokens := some 3 },
                 model := none }⟩).result.usage.contextTokens <
      (processEvent initState
        ⟨"message_end",
          some { role := "assistant", content := none,
                 usage := some { input := none, output := none,
                                 cacheRead := none, cacheWrite := none,
                                 cost := none, totalTokens := some 5 },
                 model := none }⟩).result.usage.contextTokens := by
  decide

/-- C9 amended: after every processed event the summed usage fields
(input, output, cacheRead, cacheWrite, cost) and the turn counter are
non-decreasing (and non-negative — intrinsic to the `Nat`/`NNRat`
carriers, stated here for the cost), and the tool-call list is
append-only and order-preserving: the previous list is always a prefix
of the new one, over a single event and over any event sequence;
`contextTokens` is excluded from monotonicity, being last-write-wins. -/
theorem c9_amended_monotone_accumulation (st : RunState) (e : RawEvent)
    (evs : List RawEvent) :
    st.result.usage.input ≤ (processEvent st e).result.usage.input ∧
    st.result.usage.output ≤ (processEvent st e).result.usage.output ∧
    st.result.usage.cacheRead ≤ (processEvent st e).result.usage.cacheRead ∧
    st.result.usage.cacheWrite ≤ (processEvent st e).result.usage.cacheWrite ∧
    st.result.usage.cost ≤ (processEvent st e).result.usage.cost ∧
    st.result.usage.turns ≤ (processEvent st e).result.usage.turns ∧
    0 ≤ (processEvent st e).result.usage.cost ∧
    st.result.toolCalls <+: (processEvent st e).result.toolCalls ∧
    st.result.toolCalls <+: (evs.foldl processEvent st).result.toolCalls := by
  obtain ⟨h1, h2, h3, h4, h5, h6, h7⟩ := processEvent_mono st e
  exact ⟨h1, h2, h3, h4, h5, h6, zero_le _, h7,
    foldl_processEvent_toolCalls evs st⟩

/-- C10: when the abort handler fired, the returned result's error
field is exactly the fixed abort message, replacing whatever stderr
text had been accumulated into the error field during the run. -/
theorem c10_abort_message_replaces_stderr (r : SubagentResult)
    (chunks : List String) (code : Int) (messages : List Message) :
    (finalizeResult "Librarian was aborted" true code messages
        (chunks.foldl appendStderr r)).error = some "Librarian was aborted" ∧
      (finalizeResult "Oracle was aborted" true code messages
        (chunks.foldl appendStderr r)).error = some "Oracle was aborted" :=
  ⟨rfl, rfl⟩
